import Mathlib

/-!
Formal model of the municipal-flag NFT game backend.

The administrative router (admin statistics, seeding, database reset,
IPFS status and IPFS synchronization) is embedded directly from
`routers/admin.py` and `main.py`.  The auction settlement and
flag-pairing engine is not part of the inspected code; its operations
are modelled from the specification document and are marked as such in
their doc comments.
-/

namespace FlagGame

/-- Auction lifecycle states (models.AuctionStatus; states per spec section 4.1). -/
inductive AuctionStatus where
  | PENDING
  | ACTIVE
  | CLOSING
  | SETTLED
  | CANCELLED
deriving DecidableEq

/-- A country row (models.Country). -/
structure Country where
  id : Nat
deriving DecidableEq

/-- A region row, referencing its country (models.Region). -/
structure Region where
  id : Nat
  country_id : Nat
deriving DecidableEq

/-- A municipality row, referencing its region (models.Municipality). -/
structure Municipality where
  id : Nat
  region_id : Nat
deriving DecidableEq

/-- A flag row (models.Flag): municipality reference, pair-mate reference,
the derived completeness flag, and the two IPFS hash columns read and
written by the admin router. -/
structure Flag where
  id : Nat
  municipality_id : Nat
  pair_mate_id : Nat
  is_pair_complete : Bool
  image_ipfs_hash : Option String
  metadata_ipfs_hash : Option String
deriving DecidableEq

/-- A user row (models.User). -/
structure User where
  id : Nat
deriving DecidableEq

/-- A user-connection row, referencing its user (models.UserConnection). -/
structure UserConnection where
  id : Nat
  user_id : Nat
deriving DecidableEq

/-- A flag-interest row (models.FlagInterest). -/
structure FlagInterest where
  id : Nat
  user_id : Nat
  flag_id : Nat
deriving DecidableEq

/-- A flag-ownership row (models.FlagOwnership); at most one per flag. -/
structure FlagOwnership where
  id : Nat
  user_id : Nat
  flag_id : Nat
deriving DecidableEq

/-- An auction row (models.Auction; attributes per spec section 3). -/
structure Auction where
  id : Nat
  flag_id : Nat
  status : AuctionStatus
  open_at : Nat
  close_at : Nat
  reserve_price : Nat
deriving DecidableEq

/-- A bid row (models.Bid): auction reference, bidder, amount, timestamp. -/
structure Bid where
  id : Nat
  auction_id : Nat
  user_id : Nat
  amount : Nat
  timestamp : Nat
deriving DecidableEq

/-- The whole database state: one list per table. -/
structure DB where
  countries : List Country
  regions : List Region
  municipalities : List Municipality
  flags : List Flag
  users : List User
  user_connections : List UserConnection
  flag_interests : List FlagInterest
  flag_ownerships : List FlagOwnership
  auctions : List Auction
  bids : List Bid
deriving DecidableEq

/-- Errors surfaced by the admin endpoints as HTTP status codes. -/
inductive ApiError where
  | forbidden403
  | badRequest400
  | badGateway502
deriving DecidableEq

/-- admin.verify_admin: the request passes the admin guard exactly when the
X-Admin-Key header is present and equals the configured admin API key
(admin.py lines 22 to 29). -/
def verify_admin (x_admin_key : Option String) (admin_api_key : String) : Bool :=
  decide (x_admin_key = some admin_api_key)

/-- The `completed_pairs` statistic: the number of flags whose
`is_pair_complete` column is true (admin.py lines 49 to 51). -/
def completedPairsCount (flags : List Flag) : Nat :=
  (flags.filter (fun f => f.is_pair_complete)).length

/-- The response body of GET /stats (schemas.AdminStatsResponse). -/
structure AdminStatsResponse where
  total_countries : Nat
  total_regions : Nat
  total_municipalities : Nat
  total_flags : Nat
  total_users : Nat
  total_interests : Nat
  total_ownerships : Nat
  total_auctions : Nat
  active_auctions : Nat
  completed_pairs : Nat
deriving DecidableEq

/-- The statistics computed by admin.get_admin_stats (admin.py lines 38 to 64). -/
def adminStatsOf (db : DB) : AdminStatsResponse :=
  { total_countries := db.countries.length
  , total_regions := db.regions.length
  , total_municipalities := db.municipalities.length
  , total_flags := db.flags.length
  , total_users := db.users.length
  , total_interests := db.flag_interests.length
  , total_ownerships := db.flag_ownerships.length
  , total_auctions := db.auctions.length
  , active_auctions := (db.auctions.filter (fun a => decide (a.status = AuctionStatus.ACTIVE))).length
  , completed_pairs := completedPairsCount db.flags }

/-- admin.get_admin_stats: reject with 403 unless the admin guard passes,
otherwise return the statistics; the database is never modified. -/
def get_admin_stats (hdr : Option String) (key : String) (db : DB) :
    (Except ApiError AdminStatsResponse) × DB :=
  if verify_admin hdr key then (Except.ok (adminStatsOf db), db)
  else (Except.error ApiError.forbidden403, db)

/-- admin.seed_demo_data (admin.py lines 67 to 85): 403 unless the admin
guard passes; 400 when any Country row exists; otherwise run the seeding
routine (seed_data.seed_database, outside the inspected code, passed as a
parameter). -/
def seed_demo_data (hdr : Option String) (key : String) (seedFn : DB → DB) (db : DB) :
    (Except ApiError Unit) × DB :=
  if verify_admin hdr key then
    if db.countries.length > 0 then (Except.error ApiError.badRequest400, db)
    else (Except.ok (), seedFn db)
  else (Except.error ApiError.forbidden403, db)

/-- main.startup_event (main.py lines 52 to 68): after initialization, seed
the database exactly when the Country table is empty. -/
def startup_event (seedFn : DB → DB) (db : DB) : DB :=
  if db.countries.length = 0 then seedFn db else db

/-- The response body of GET /ipfs-status; `flags_pending_upload` is an
integer difference, as in Python. -/
structure IpfsStatusResponse where
  total_flags : Nat
  flags_with_image_hash : Nat
  flags_with_metadata_hash : Nat
  flags_pending_upload : Int
deriving DecidableEq

/-- The report computed by admin.ipfs_status (admin.py lines 121 to 140). -/
def ipfsStatusOf (flags : List Flag) : IpfsStatusResponse :=
  { total_flags := flags.length
  , flags_with_image_hash := (flags.filter (fun f => f.image_ipfs_hash.isSome)).length
  , flags_with_metadata_hash := (flags.filter (fun f => f.metadata_ipfs_hash.isSome)).length
  , flags_pending_upload :=
      (flags.length : Int) - ((flags.filter (fun f => f.image_ipfs_hash.isSome)).length : Int) }

/-- admin.ipfs_status endpoint: admin guard, then the report; read-only. -/
def ipfs_status (hdr : Option String) (key : String) (db : DB) :
    (Except ApiError IpfsStatusResponse) × DB :=
  if verify_admin hdr key then (Except.ok (ipfsStatusOf db.flags), db)
  else (Except.error ApiError.forbidden403, db)

/-- Deletion of all flag-interest rows (admin.py line 95). -/
def delFlagInterests (db : DB) : DB := { db with flag_interests := [] }

/-- Deletion of all flag-ownership rows (admin.py line 96). -/
def delFlagOwnerships (db : DB) : DB := { db with flag_ownerships := [] }

/-- Deletion of all bid rows (admin.py line 98). -/
def delBids (db : DB) : DB := { db with bids := [] }

/-- Deletion of all auction rows (admin.py line 99). -/
def delAuctions (db : DB) : DB := { db with auctions := [] }

/-- Deletion of all user-connection rows (admin.py line 100). -/
def delUserConnections (db : DB) : DB := { db with user_connections := [] }

/-- Deletion of all user rows (admin.py line 101). -/
def delUsers (db : DB) : DB := { db with users := [] }

/-- Deletion of all flag rows (admin.py line 102). -/
def delFlags (db : DB) : DB := { db with flags := [] }

/-- Deletion of all municipality rows (admin.py line 103). -/
def delMunicipalities (db : DB) : DB := { db with municipalities := [] }

/-- Deletion of all region rows (admin.py line 104). -/
def delRegions (db : DB) : DB := { db with regions := [] }

/-- Deletion of all country rows (admin.py line 105). -/
def delCountries (db : DB) : DB := { db with countries := [] }

/-- admin.reset_database (admin.py lines 88 to 108): the ten table
deletions, applied in the order they appear in the source. -/
def reset_database (db : DB) : DB :=
  delCountries (delRegions (delMunicipalities (delFlags (delUsers
    (delUserConnections (delAuctions (delBids (delFlagOwnerships
      (delFlagInterests db)))))))))

/-- The sequence of database states seen while reset_database runs: the
initial state followed by the state after each of the ten deletions. -/
def resetTrace (db : DB) : List DB :=
  [ db
  , delFlagInterests db
  , delFlagOwnerships (delFlagInterests db)
  , delBids (delFlagOwnerships (delFlagInterests db))
  , delAuctions (delBids (delFlagOwnerships (delFlagInterests db)))
  , delUserConnections (delAuctions (delBids (delFlagOwnerships
      (delFlagInterests db))))
  , delUsers (delUserConnections (delAuctions (delBids (delFlagOwnerships
      (delFlagInterests db)))))
  , delFlags (delUsers (delUserConnections (delAuctions (delBids
      (delFlagOwnerships (delFlagInterests db))))))
  , delMunicipalities (delFlags (delUsers (delUserConnections (delAuctions
      (delBids (delFlagOwnerships (delFlagInterests db)))))))
  , delRegions (delMunicipalities (delFlags (delUsers (delUserConnections
      (delAuctions (delBids (delFlagOwnerships (delFlagInterests db))))))))
  , reset_database db ]

/-- admin.reset_database endpoint wrapper: admin guard, then the reset. -/
def reset_database_endpoint (hdr : Option String) (key : String) (db : DB) :
    (Except ApiError Unit) × DB :=
  if verify_admin hdr key then (Except.ok (), reset_database db)
  else (Except.error ApiError.forbidden403, db)

/-- Referential integrity of a database state: every foreign key of every
row resolves to an existing row of the referenced table. -/
def refIntact (db : DB) : Prop :=
  (∀ r ∈ db.regions, ∃ c ∈ db.countries, c.id = r.country_id) ∧
  (∀ m ∈ db.municipalities, ∃ r ∈ db.regions, r.id = m.region_id) ∧
  (∀ f ∈ db.flags, ∃ m ∈ db.municipalities, m.id = f.municipality_id) ∧
  (∀ a ∈ db.auctions, ∃ f ∈ db.flags, f.id = a.flag_id) ∧
  (∀ b ∈ db.bids, (∃ a ∈ db.auctions, a.id = b.auction_id) ∧
    (∃ u ∈ db.users, u.id = b.user_id)) ∧
  (∀ uc ∈ db.user_connections, ∃ u ∈ db.users, u.id = uc.user_id) ∧
  (∀ i ∈ db.flag_interests, (∃ f ∈ db.flags, f.id = i.flag_id) ∧
    (∃ u ∈ db.users, u.id = i.user_id)) ∧
  (∀ o ∈ db.flag_ownerships, (∃ f ∈ db.flags, f.id = o.flag_id) ∧
    (∃ u ∈ db.users, u.id = o.user_id))

instance (db : DB) : Decidable (refIntact db) := by
  unfold refIntact
  infer_instance

/-- The zero-digit codepoint of every run of Unicode decimal digits
(general category Nd, Unicode database as bundled with CPython): each run
is ten consecutive codepoints whose decimal values are 0 to 9.  Python
`\d` on str patterns matches exactly these characters. -/
def pyDigitBases : List Nat :=
  [48, 1632, 1776, 1984, 2406, 2534, 2662, 2790, 2918, 3046, 3174, 3302, 3430,
   3558, 3664, 3792, 3872, 4160, 4240, 6112, 6160, 6470, 6608, 6784, 6800,
   6992, 7088, 7232, 7248, 42528, 43216, 43264, 43472, 43504, 43600, 44016,
   65296, 66720, 68912, 69734, 69872, 69942, 70096, 70384, 70736, 70864,
   71248, 71360, 71472, 71904, 72016, 72784, 73040, 73120, 92768, 92864,
   93008, 120782, 120792, 120802, 120812, 120822, 123200, 123632, 125264,
   130032]

/-- Python `\d` for str patterns: a Unicode decimal digit. -/
def isPyDigit (c : Char) : Bool :=
  pyDigitBases.any (fun b => b ≤ c.toNat && c.toNat < b + 10)

/-- The decimal value of a Unicode decimal digit, as Python `int` reads
it; 0 on non-digits. -/
def pyDigitVal (c : Char) : Nat :=
  match pyDigitBases.find? (fun b => b ≤ c.toNat && c.toNat < b + 10) with
  | some b => c.toNat - b
  | none => 0

/-- The numeric value of a digit string, as Python `int` computes it on
Unicode decimal digits; leading zeros contribute nothing. -/
def digitsVal (cs : List Char) : Nat :=
  cs.foldl (fun n c => 10 * n + pyDigitVal c) 0

/-- The end anchor of an re.match without MULTILINE: `$` succeeds at the
very end of the string or just before one final newline, so the remaining
input must be the pattern's literal tail, optionally followed by a single
newline. -/
def dollarAnchored (rest tail2 : List Char) : Bool :=
  decide (rest = tail2) || decide (rest = tail2 ++ [Char.ofNat 10])

/-- Matcher for the image-name regex of admin.py line 186
(three ASCII uppercase letters, underscore, one or more ASCII lowercase
letters, underscore, one or more Unicode decimal digits, then `.png` and
the `$` anchor); returns the number read from the digit group.  Because
the character classes are disjoint from the separators, the greedy
reading coincides with the regular expression. -/
def matchImageChars : List Char → Option Nat
  | a :: b :: c :: '_' :: rest =>
    if a.isUpper && b.isUpper && c.isUpper then
      match rest.dropWhile Char.isLower with
      | '_' :: rest2 =>
        if (rest.takeWhile Char.isLower) ≠ [] ∧
            (rest2.takeWhile isPyDigit) ≠ [] ∧
            dollarAnchored (rest2.dropWhile isPyDigit) ['.', 'p', 'n', 'g'] = true then
          some (digitsVal (rest2.takeWhile isPyDigit))
        else none
      | _ => none
    else none
  | _ => none

/-- String wrapper for `matchImageChars`. -/
def matchImageName (s : String) : Option Nat :=
  matchImageChars s.data

/-- Matcher for the metadata-name regex of admin.py line 193: `flag_`,
one or more Unicode decimal digits, then `_metadata.json` and the `$`
anchor. -/
def matchMetadataChars : List Char → Option Nat
  | 'f' :: 'l' :: 'a' :: 'g' :: '_' :: rest =>
    if (rest.takeWhile isPyDigit) ≠ [] ∧
        dollarAnchored (rest.dropWhile isPyDigit)
          ['_', 'm', 'e', 't', 'a', 'd', 'a', 't', 'a', '.', 'j', 's', 'o', 'n'] = true then
      some (digitsVal (rest.takeWhile isPyDigit))
    else none
  | _ => none

/-- String wrapper for `matchMetadataChars`. -/
def matchMetadataName (s : String) : Option Nat :=
  matchMetadataChars s.data

/-- The image-name shape that claim C9 literally describes: exactly three
uppercase letters, underscore, one or more lowercase letters, underscore,
an ASCII digit string, then `.png` ending the name — no trailing newline
and no non-ASCII digits.  Kept apart from `matchImageChars` (the source
regex) to compare the claim's wording with the code. -/
def claimedImageChars : List Char → Option Nat
  | a :: b :: c :: '_' :: rest =>
    if a.isUpper && b.isUpper && c.isUpper then
      match rest.dropWhile Char.isLower with
      | '_' :: rest2 =>
        if (rest.takeWhile Char.isLower) ≠ [] ∧
            (rest2.takeWhile Char.isDigit) ≠ [] ∧
            rest2.dropWhile Char.isDigit = ['.', 'p', 'n', 'g'] then
          some (digitsVal (rest2.takeWhile Char.isDigit))
        else none
      | _ => none
    else none
  | _ => none

/-- String wrapper for `claimedImageChars`. -/
def claimedImageName (s : String) : Option Nat :=
  claimedImageChars s.data

/-- One pinned file as reported by the pinning service: its metadata name
and its IPFS hash; a missing field is the empty string. -/
structure Pin where
  name : String
  ipfs_pin_hash : String
deriving DecidableEq

/-- The image map built by the loop of admin.py lines 177 to 196: pins with
an empty name or hash are skipped, a pin whose name matches the image
pattern is recorded under the parsed flag id, and a later pin overwrites
an earlier one with the same id (dictionary assignment).  Entries from
later pins are placed in front so that lookup finds them first. -/
def buildImageMap : List Pin → List (Nat × String)
  | [] => []
  | p :: rest =>
    if p.name = "" ∨ p.ipfs_pin_hash = "" then buildImageMap rest
    else
      match matchImageName p.name with
      | some fid => buildImageMap rest ++ [(fid, p.ipfs_pin_hash)]
      | none => buildImageMap rest

/-- The metadata map built by the same loop: a pin is considered for the
metadata pattern only when the image pattern did not match (the loop
continues after an image match). -/
def buildMetadataMap : List Pin → List (Nat × String)
  | [] => []
  | p :: rest =>
    if p.name = "" ∨ p.ipfs_pin_hash = "" then buildMetadataMap rest
    else
      match matchImageName p.name with
      | some _ => buildMetadataMap rest
      | none =>
        match matchMetadataName p.name with
        | some fid => buildMetadataMap rest ++ [(fid, p.ipfs_pin_hash)]
        | none => buildMetadataMap rest

/-- Dictionary lookup in the maps above (dict.get). -/
def mapGet (m : List (Nat × String)) (k : Nat) : Option String :=
  (m.find? (fun e => decide (e.1 = k))).map (fun e => e.2)

/-- The image-hash update of admin.py lines 209 to 211: when the image map
has an entry for the flag id and it differs from the stored hash, store it
and mark the flag updated. -/
def applyImageHash (im : List (Nat × String)) (f : Flag) : Flag × Bool :=
  match mapGet im f.id with
  | some h =>
    if f.image_ipfs_hash ≠ some h then ({ f with image_ipfs_hash := some h }, true)
    else (f, false)
  | none => (f, false)

/-- The metadata-hash update of admin.py lines 212 to 214, applied after
the image update; the updated mark is kept if either update fired. -/
def applyMetadataHash (mm : List (Nat × String)) (fb : Flag × Bool) : Flag × Bool :=
  match mapGet mm fb.1.id with
  | some h =>
    if fb.1.metadata_ipfs_hash ≠ some h then
      ({ fb.1 with metadata_ipfs_hash := some h }, true)
    else fb
  | none => fb

/-- The per-flag body of the loop of admin.py lines 203 to 217. -/
def syncFlag (im mm : List (Nat × String)) (f : Flag) : Flag × Bool :=
  applyMetadataHash mm (applyImageHash im f)

/-- The synchronization core of admin.py lines 173 to 219: build both maps
from the pin list, update every flag, and count the updated flags. -/
def syncFlags (pins : List Pin) (flags : List Flag) : List Flag × Nat :=
  (flags.map (fun f => (syncFlag (buildImageMap pins) (buildMetadataMap pins) f).1),
   (flags.filter (fun f => (syncFlag (buildImageMap pins) (buildMetadataMap pins) f).2)).length)

/-- admin.sync_ipfs_from_pinata (admin.py lines 143 to 224): admin guard,
400 when no Pinata JWT is configured, 502 when the pin-list request fails,
otherwise the synchronization core; returns the updated count. -/
def sync_ipfs_from_pinata (hdr : Option String) (key : String)
    (pinata_jwt : Option String) (pinListResp : Except Unit (List Pin)) (db : DB) :
    (Except ApiError Nat) × DB :=
  if verify_admin hdr key then
    if pinata_jwt = none ∨ pinata_jwt = some "" then
      (Except.error ApiError.badRequest400, db)
    else
      match pinListResp with
      | Except.error _ => (Except.error ApiError.badGateway502, db)
      | Except.ok pins =>
        (Except.ok (syncFlags pins db.flags).2,
         { db with flags := (syncFlags pins db.flags).1 })
  else (Except.error ApiError.forbidden403, db)

/-- The bids recorded against one auction, in order of acceptance. -/
def bidsFor (db : DB) (aid : Nat) : List Bid :=
  db.bids.filter (fun b => decide (b.auction_id = aid))

/-- Auction lookup by identifier. -/
def findAuction (db : DB) (aid : Nat) : Option Auction :=
  db.auctions.find? (fun a => decide (a.id = aid))

/-- Status of one auction, when it exists. -/
def auctionStatusOf (db : DB) (aid : Nat) : Option AuctionStatus :=
  (findAuction db aid).map (fun a => a.status)

/-- Whether bid b beats bid h: a strictly greater amount, or an equal
amount with a strictly earlier timestamp. -/
def betterBid (b h : Bid) : Bool :=
  decide (h.amount < b.amount ∨ (b.amount = h.amount ∧ b.timestamp < h.timestamp))

/-- Modelled from the spec: BidLedger.highestBid (spec section 4.2), absent
from the inspected code.  Returns the bid with the greatest amount, ties
broken by earliest timestamp. -/
def highestBid : List Bid → Option Bid
  | [] => none
  | b :: rest =>
    match highestBid rest with
    | none => some b
    | some h => if betterBid b h then some b else some h

/-- The amount a new bid must strictly exceed: the current highest accepted
bid, or the reserve price when no bid exists yet (spec section 4.1). -/
def currentFloor (a : Auction) (bids : List Bid) : Nat :=
  match highestBid bids with
  | some h => h.amount
  | none => a.reserve_price

/-- Errors returned by placeBid (spec section 7). -/
inductive BidError where
  | UnknownAuction
  | AuctionNotActive
  | AuctionClosed
  | BidTooLow
deriving DecidableEq

/-- A bid request: bidder, amount and acceptance timestamp. -/
structure BidReq where
  user_id : Nat
  amount : Nat
  timestamp : Nat
deriving DecidableEq

/-- Fresh bid identifier: one more than the largest in use. -/
def newBidId (bids : List Bid) : Nat :=
  bids.foldl (fun n b => max n b.id) 0 + 1

/-- Modelled from the spec: AuctionLifecycle.placeBid (spec sections 4.1
and 7), absent from the inspected code.  A bid whose timestamp is at or
after the closing time fails with AuctionClosed regardless of amount; a
bid on a non-ACTIVE auction fails with AuctionNotActive; a bid that does
not strictly exceed the current floor fails with BidTooLow; otherwise the
bid is appended to the ledger. -/
def placeBid (db : DB) (aid : Nat) (r : BidReq) : (Except BidError Nat) × DB :=
  match findAuction db aid with
  | none => (Except.error BidError.UnknownAuction, db)
  | some a =>
    if a.close_at ≤ r.timestamp then (Except.error BidError.AuctionClosed, db)
    else if a.status ≠ AuctionStatus.ACTIVE then
      (Except.error BidError.AuctionNotActive, db)
    else if r.amount ≤ currentFloor a (bidsFor db aid) then
      (Except.error BidError.BidTooLow, db)
    else
      (Except.ok (newBidId db.bids),
       { db with bids := db.bids ++ [⟨newBidId db.bids, aid, r.user_id, r.amount, r.timestamp⟩] })

/-- A whole sequence of bid requests processed in order; the trace records,
for each request, the database state in which it was decided and its
outcome. -/
def runBids (db : DB) (aid : Nat) :
    List BidReq → (List (DB × BidReq × Except BidError Nat) × DB)
  | [] => ([], db)
  | r :: rs =>
    ((db, r, (placeBid db aid r).1) :: (runBids (placeBid db aid r).2 aid rs).1,
     (runBids (placeBid db aid r).2 aid rs).2)

/-- The current owner of a flag, read from the ownership table. -/
def ownerOf (owns : List FlagOwnership) (fid : Nat) : Option Nat :=
  (owns.find? (fun o => decide (o.flag_id = fid))).map (fun o => o.user_id)

/-- Modelled from the spec: the pair-completeness criterion of
PairCompletionTracker.recompute (spec section 4.4), absent from the
inspected code — true exactly when both pair-mates have an owner and both
owners are the same user. -/
def pairCompleteNow (owns : List FlagOwnership) (f : Flag) : Bool :=
  match ownerOf owns f.id, ownerOf owns f.pair_mate_id with
  | some u, some v => decide (u = v)
  | _, _ => false

/-- Fresh ownership identifier. -/
def newOwnershipId (owns : List FlagOwnership) : Nat :=
  owns.foldl (fun n o => max n o.id) 0 + 1

/-- Modelled from the spec: the exclusive ownership write of
SettlementCoordinator step 2 (spec section 4.3), absent from the inspected
code — the flag's ownership record is written, replacing any prior owner. -/
def writeOwnership (db : DB) (fid uid : Nat) : DB :=
  { db with flag_ownerships :=
      ⟨newOwnershipId db.flag_ownerships, uid, fid⟩ ::
        db.flag_ownerships.filter (fun o => decide (o.flag_id ≠ fid)) }

/-- Removal of a flag's ownership record (administrative release). -/
def removeOwnership (db : DB) (fid : Nat) : DB :=
  { db with flag_ownerships := db.flag_ownerships.filter (fun o => decide (o.flag_id ≠ fid)) }

/-- Modelled from the spec: PairCompletionTracker.recompute (spec section
4.4), absent from the inspected code — after an ownership change of the
given flag, both sides of its pair get their `is_pair_complete` column
recomputed from the current owners. -/
def recomputePair (db : DB) (fid : Nat) : DB :=
  match db.flags.find? (fun f => decide (f.id = fid)) with
  | none => db
  | some f0 =>
    { db with flags := db.flags.map (fun f =>
        if f.id = fid ∨ f.id = f0.pair_mate_id then
          { f with is_pair_complete := pairCompleteNow db.flag_ownerships f }
        else f) }

/-- An ownership write followed by the recomputation of both pair-mates,
the combination required after every settlement (spec section 4.4). -/
def settleOwnership (db : DB) (fid uid : Nat) : DB :=
  recomputePair (writeOwnership db fid uid) fid

/-- An ownership release followed by the recomputation of both pair-mates. -/
def releaseOwnership (db : DB) (fid : Nat) : DB :=
  recomputePair (removeOwnership db fid) fid

/-- Errors surfaced by settlement (spec section 7). -/
inductive SettleError where
  | UnknownAuction
  | IllegalStateTransition
  | SettlementFailed
deriving DecidableEq

/-- Status update of one auction row. -/
def setAuctionStatus (db : DB) (aid : Nat) (st : AuctionStatus) : DB :=
  { db with auctions := db.auctions.map (fun a =>
      if a.id = aid then { a with status := st } else a) }

/-- Modelled from the spec: the write sequence of SettlementCoordinator
(spec section 4.3, steps 2 to 4) — ownership write, pair recomputation,
then the transition to SETTLED; when no valid bid exists the auction
settles with no ownership change. -/
def settleSteps (db : DB) (aid : Nat) (a : Auction) : List (DB → DB) :=
  match highestBid (bidsFor db aid) with
  | none => [fun d => setAuctionStatus d aid AuctionStatus.SETTLED]
  | some w =>
    [ fun d => writeOwnership d a.flag_id w.user_id
    , fun d => recomputePair d a.flag_id
    , fun d => setAuctionStatus d aid AuctionStatus.SETTLED ]

/-- Whether an injected failure point falls inside the write sequence. -/
def txAborts (failAt : Option Nat) (n : Nat) : Bool :=
  match failAt with
  | some k => decide (k < n)
  | none => false

/-- Modelled from the spec: SettlementCoordinator.settle (spec section 4.3),
absent from the inspected code, with an optional injected failure point.
On an already SETTLED auction it is a no-op returning the recorded winner;
on a CLOSING auction the write sequence runs as one atomic unit — when the
injected failure hits any step of the sequence, nothing of it becomes
visible and the call reports SettlementFailed. -/
def settleTx (db : DB) (aid : Nat) (failAt : Option Nat) :
    (Except SettleError (Option Nat)) × DB :=
  match findAuction db aid with
  | none => (Except.error SettleError.UnknownAuction, db)
  | some a =>
    if a.status = AuctionStatus.SETTLED then
      (Except.ok ((highestBid (bidsFor db aid)).map (fun w => w.user_id)), db)
    else if a.status = AuctionStatus.CLOSING then
      if txAborts failAt (settleSteps db aid a).length then
        (Except.error SettleError.SettlementFailed, db)
      else
        (Except.ok ((highestBid (bidsFor db aid)).map (fun w => w.user_id)),
         (settleSteps db aid a).foldl (fun d step => step d) db)
    else (Except.error SettleError.IllegalStateTransition, db)

/-- settle without failure injection. -/
def settle (db : DB) (aid : Nat) : (Except SettleError (Option Nat)) × DB :=
  settleTx db aid none

/-- Well-formed pairing of the flag catalog: flag identifiers are distinct
and the pair-mate relation is an involution — every flag's mate exists and
points back (spec section 3: two complementary variants per pair). -/
def PairWF (flags : List Flag) : Prop :=
  flags.Pairwise (fun f g => f.id ≠ g.id) ∧
  ∀ f ∈ flags, ∃ g ∈ flags, g.id = f.pair_mate_id ∧ g.pair_mate_id = f.id

instance (flags : List Flag) : Decidable (PairWF flags) := by
  unfold PairWF
  infer_instance

/-- The pair-completeness invariant: every flag's stored
`is_pair_complete` column agrees with the completeness criterion computed
from the current ownership table. -/
def PairInv (db : DB) : Prop :=
  ∀ f ∈ db.flags, f.is_pair_complete = pairCompleteNow db.flag_ownerships f

/-- The states reachable by the engine, modelled from the spec: a
well-paired catalog starts with no ownerships and no pair marked complete;
every ownership write or release is immediately followed by the
recomputation of both pair-mates (spec section 4.4); operations touching
only the auction and bid tables are unrestricted. -/
inductive Reachable : DB → Prop where
  | init (db : DB) (hwf : PairWF db.flags) (hown : db.flag_ownerships = [])
      (hinit : ∀ f ∈ db.flags, f.is_pair_complete = false) : Reachable db
  | settleStep (db : DB) (fid uid : Nat) (h : Reachable db)
      (hmem : fid ∈ db.flags.map Flag.id) : Reachable (settleOwnership db fid uid)
  | releaseStep (db : DB) (fid : Nat) (h : Reachable db) :
      Reachable (releaseOwnership db fid)
  | auctionStep (db : DB) (aucts : List Auction) (bs : List Bid) (h : Reachable db) :
      Reachable { db with auctions := aucts, bids := bs }

/-! Theorems. -/

/-- Splitting the flag list by presence of the image hash. -/
theorem image_filter_split (flags : List Flag) :
    (flags.filter (fun f => f.image_ipfs_hash.isSome)).length +
      (flags.filter (fun f => decide (f.image_ipfs_hash = none))).length = flags.length := by
  induction flags with
  | nil => simp
  | cons f t ih =>
    cases hf : f.image_ipfs_hash <;> simp [List.filter_cons, hf] <;> omega

/-- Claim C10: in the ipfs-status report, for every database state,
flags_pending_upload equals total_flags minus flags_with_image_hash, which
equals the number of flags whose image_ipfs_hash is null, and is therefore
never negative. -/
theorem claim_C10 (flags : List Flag) :
    (ipfsStatusOf flags).flags_pending_upload
        = ((ipfsStatusOf flags).total_flags : Int) - ((ipfsStatusOf flags).flags_with_image_hash : Int)
  ∧ (ipfsStatusOf flags).flags_pending_upload
        = ((flags.filter (fun f => decide (f.image_ipfs_hash = none))).length : Int)
  ∧ 0 ≤ (ipfsStatusOf flags).flags_pending_upload := by
  have h := image_filter_split flags
  have hle : (flags.filter (fun f => f.image_ipfs_hash.isSome)).length ≤ flags.length :=
    List.length_filter_le _ _
  refine ⟨rfl, ?_, ?_⟩ <;> simp only [ipfsStatusOf] <;> omega

/-- Claim C3: for every protected admin operation (stats, seed, reset,
ipfs-status, ipfs sync) and every request, the call fails with 403 exactly
when the supplied X-Admin-Key header differs from the configured admin
credential (in particular when it is absent), and in that case the
database is unchanged. -/
theorem claim_C3 (hdr : Option String) (key : String) (db : DB) (seedFn : DB → DB)
    (jwt : Option String) (resp : Except Unit (List Pin)) :
    (((get_admin_stats hdr key db).1 = Except.error ApiError.forbidden403) ↔ hdr ≠ some key)
  ∧ (hdr ≠ some key → (get_admin_stats hdr key db).2 = db)
  ∧ (((seed_demo_data hdr key seedFn db).1 = Except.error ApiError.forbidden403) ↔ hdr ≠ some key)
  ∧ (hdr ≠ some key → (seed_demo_data hdr key seedFn db).2 = db)
  ∧ (((reset_database_endpoint hdr key db).1 = Except.error ApiError.forbidden403) ↔ hdr ≠ some key)
  ∧ (hdr ≠ some key → (reset_database_endpoint hdr key db).2 = db)
  ∧ (((ipfs_status hdr key db).1 = Except.error ApiError.forbidden403) ↔ hdr ≠ some key)
  ∧ (hdr ≠ some key → (ipfs_status hdr key db).2 = db)
  ∧ (((sync_ipfs_from_pinata hdr key jwt resp db).1 = Except.error ApiError.forbidden403) ↔ hdr ≠ some key)
  ∧ (hdr ≠ some key → (sync_ipfs_from_pinata hdr key jwt resp db).2 = db) := by
  by_cases h : hdr = some key
  · subst h
    have hv : verify_admin (some key) key = true := by simp [verify_admin]
    refine ⟨?_, ?_, ?_, ?_, ?_, ?_, ?_, ?_, ?_, ?_⟩
    · simp [get_admin_stats, hv]
    · intro hc; exact absurd rfl hc
    · simp only [seed_demo_data, hv, if_true]
      constructor
      · intro hc; exact absurd hc (by split <;> simp)
      · intro hc; exact absurd rfl hc
    · intro hc; exact absurd rfl hc
    · simp [reset_database_endpoint, hv]
    · intro hc; exact absurd rfl hc
    · simp [ipfs_status, hv]
    · intro hc; exact absurd rfl hc
    · simp only [sync_ipfs_from_pinata, hv, if_true]
      constructor
      · intro hc
        refine absurd hc ?_
        split
        · simp
        · cases resp <;> simp
      · intro hc; exact absurd rfl hc
    · intro hc; exact absurd rfl hc
  · refine ⟨?_, ?_, ?_, ?_, ?_, ?_, ?_, ?_, ?_, ?_⟩ <;>
      simp [get_admin_stats, seed_demo_data, reset_database_endpoint, ipfs_status,
        sync_ipfs_from_pinata, verify_admin, h]

/-- A flag with a pair-mate, used in concrete witness states. -/
def sampleFlagA : Flag := ⟨1, 1, 2, false, none, none⟩

/-- The pair-mate of sampleFlagA. -/
def sampleFlagB : Flag := ⟨2, 1, 1, false, none, none⟩

/-- A small concrete database with one row in most tables and an active
auction on flag 1. -/
def sampleDB : DB :=
  ⟨[⟨1⟩], [⟨1, 1⟩], [⟨1, 1⟩], [sampleFlagA, sampleFlagB], [⟨7⟩, ⟨8⟩], [⟨1, 7⟩],
   [⟨1, 7, 1⟩], [], [⟨1, 1, AuctionStatus.ACTIVE, 0, 100, 10⟩], []⟩

/-- Witness for claim C3: with no header supplied, the stats endpoint
answers 403 on a concrete database. -/
theorem claim_C3_witness :
    (get_admin_stats none "k" sampleDB).1 = Except.error ApiError.forbidden403 :=
  (claim_C3 none "k" sampleDB id none (Except.ok [])).1.mpr (by decide)

/-- Claim C8: with a valid admin key, the seed endpoint fails with 400 and
changes nothing whenever a Country row exists and seeds exactly when none
does; the startup auto-seed likewise runs exactly when the Country count
is zero. -/
theorem claim_C8 (key : String) (seedFn : DB → DB) (db : DB) :
    (db.countries ≠ [] →
        seed_demo_data (some key) key seedFn db = (Except.error ApiError.badRequest400, db))
  ∧ (db.countries = [] →
        seed_demo_data (some key) key seedFn db = (Except.ok (), seedFn db))
  ∧ (db.countries ≠ [] → startup_event seedFn db = db)
  ∧ (db.countries = [] → startup_event seedFn db = seedFn db) := by
  refine ⟨?_, ?_, ?_, ?_⟩ <;> intro h
  · have hl : 0 < db.countries.length := List.length_pos.mpr h
    simp [seed_demo_data, verify_admin, hl]
  · simp [seed_demo_data, verify_admin, h]
  · have hl : db.countries.length ≠ 0 := fun hz => h (List.length_eq_zero.mp hz)
    simp [startup_event, hl]
  · simp [startup_event, h]

/-- Witness for claim C8: on a concrete database with one country, the
seed endpoint answers 400 and leaves the database unchanged. -/
theorem claim_C8_witness :
    seed_demo_data (some "k") "k" id sampleDB = (Except.error ApiError.badRequest400, sampleDB) :=
  (claim_C8 "k" id sampleDB).1 (by decide)

/-- Claim C2: starting from a referentially intact database, the
administrative reset empties every table, every intermediate state of the
deletion sequence is still referentially intact (each dependent table is
emptied before the table it references), and in particular at no point of
the sequence does a bid remain after the auction table has been touched. -/
theorem claim_C2 (db : DB) (h : refIntact db) :
    reset_database db = DB.mk [] [] [] [] [] [] [] [] [] []
  ∧ (∀ d ∈ resetTrace db, refIntact d)
  ∧ (∀ d ∈ resetTrace db, d.auctions ≠ db.auctions → d.bids = []) := by
  obtain ⟨h1, h2, h3, h4, h5, h6, h7, h8⟩ := h
  refine ⟨?_, ?_, ?_⟩
  · rfl
  · intro d hd
    simp only [resetTrace, List.mem_cons, List.mem_singleton, List.not_mem_nil,
      or_false] at hd
    rcases hd with rfl | rfl | rfl | rfl | rfl | rfl | rfl | rfl | rfl | rfl | rfl <;>
      simp only [refIntact, reset_database, delFlagInterests, delFlagOwnerships, delBids,
        delAuctions, delUserConnections, delUsers, delFlags, delMunicipalities, delRegions,
        delCountries] <;>
      refine ⟨?_, ?_, ?_, ?_, ?_, ?_, ?_, ?_⟩ <;>
        first
          | assumption
          | simp
  · intro d hd
    simp only [resetTrace, List.mem_cons, List.mem_singleton, List.not_mem_nil,
      or_false] at hd
    rcases hd with rfl | rfl | rfl | rfl | rfl | rfl | rfl | rfl | rfl | rfl | rfl <;>
      (try simp only [reset_database, delFlagInterests, delFlagOwnerships, delBids,
        delAuctions, delUserConnections, delUsers, delFlags, delMunicipalities, delRegions,
        delCountries]) <;>
      intro hne <;>
      trivial

/-- Witness for claim C2: resetting a concrete intact database empties
every table. -/
theorem claim_C2_witness :
    reset_database sampleDB = DB.mk [] [] [] [] [] [] [] [] [] [] :=
  (claim_C2 sampleDB (by decide)).1

/-- Claim C7: for every auction and every bid request whose timestamp is
at or after the auction's closing time, placeBid rejects the bid with
AuctionClosed regardless of amount, leaving the state unchanged. -/
theorem claim_C7 (db : DB) (aid : Nat) (r : BidReq) (a : Auction)
    (hfind : findAuction db aid = some a) (hlate : a.close_at ≤ r.timestamp) :
    placeBid db aid r = (Except.error BidError.AuctionClosed, db) := by
  simp [placeBid, hfind, hlate]

/-- A concrete database whose auction 1 is active and closes at time 100,
used to exercise the engine theorems. -/
def sampleAuction : Auction := ⟨1, 1, AuctionStatus.ACTIVE, 0, 100, 10⟩

/-- Witness for claim C7: a concrete bid of a huge amount at the closing
time is rejected with AuctionClosed. -/
theorem claim_C7_witness :
    placeBid sampleDB 1 ⟨8, 1000000, 100⟩ = (Except.error BidError.AuctionClosed, sampleDB) :=
  claim_C7 sampleDB 1 ⟨8, 1000000, 100⟩ sampleAuction (by decide) (by decide)

/-- A lookup that succeeds in the front part of an appended map succeeds
in the whole map with the same value. -/
theorem mapGet_append_some (m1 m2 : List (Nat × String)) (k : Nat) (v : String)
    (h : mapGet m1 k = some v) : mapGet (m1 ++ m2) k = some v := by
  induction m1 with
  | nil => simp [mapGet] at h
  | cons e m1 ih =>
    by_cases he : e.1 = k
    · simp [mapGet, List.find?_cons_of_pos, he] at h ⊢
      exact h
    · simp only [mapGet, List.find?_cons_of_neg, he, decide_eq_true_eq, not_false_eq_true,
        List.cons_append] at h ⊢
      exact ih h

/-- A lookup that fails in the front part of an appended map falls through
to the back part. -/
theorem mapGet_append_none (m1 m2 : List (Nat × String)) (k : Nat)
    (h : mapGet m1 k = none) : mapGet (m1 ++ m2) k = mapGet m2 k := by
  induction m1 with
  | nil => simp
  | cons e m1 ih =>
    by_cases he : e.1 = k
    · simp [mapGet, List.find?_cons_of_pos, he] at h
    · simp only [mapGet, List.find?_cons_of_neg, he, decide_eq_true_eq, not_false_eq_true,
        List.cons_append] at h ⊢
      exact ih h

/-- Every entry delivered by the image map comes from some pin whose name
matches the image pattern with the entry's key. -/
theorem mapGet_buildImageMap (pins : List Pin) (fid : Nat) (h : String)
    (hm : mapGet (buildImageMap pins) fid = some h) :
    ∃ p ∈ pins, matchImageName p.name = some fid ∧ p.ipfs_pin_hash = h := by
  induction pins with
  | nil => simp [buildImageMap, mapGet] at hm
  | cons p rest ih =>
    rw [buildImageMap] at hm
    by_cases hskip : p.name = "" ∨ p.ipfs_pin_hash = ""
    · simp only [hskip, if_true] at hm
      obtain ⟨q, hq, hq2⟩ := ih hm
      exact ⟨q, List.mem_cons_of_mem p hq, hq2⟩
    · simp only [hskip, if_false] at hm
      cases hmatch : matchImageName p.name with
      | none =>
        rw [hmatch] at hm
        obtain ⟨q, hq, hq2⟩ := ih hm
        exact ⟨q, List.mem_cons_of_mem p hq, hq2⟩
      | some fid2 =>
        rw [hmatch] at hm
        cases hrest : mapGet (buildImageMap rest) fid with
        | some h0 =>
          rw [mapGet_append_some _ _ _ _ hrest] at hm
          obtain ⟨q, hq, hq2⟩ := ih (hrest.trans hm)
          exact ⟨q, List.mem_cons_of_mem p hq, hq2⟩
        | none =>
          rw [mapGet_append_none _ _ _ hrest] at hm
          by_cases hk : fid2 = fid
          · subst hk
            simp [mapGet] at hm
            exact ⟨p, List.mem_cons_self p rest, hmatch, hm⟩
          · simp [mapGet, hk] at hm

/-- Every entry delivered by the metadata map comes from some pin whose
name matches the metadata pattern with the entry's key. -/
theorem mapGet_buildMetadataMap (pins : List Pin) (fid : Nat) (h : String)
    (hm : mapGet (buildMetadataMap pins) fid = some h) :
    ∃ p ∈ pins, matchMetadataName p.name = some fid ∧ p.ipfs_pin_hash = h := by
  induction pins with
  | nil => simp [buildMetadataMap, mapGet] at hm
  | cons p rest ih =>
    rw [buildMetadataMap] at hm
    by_cases hskip : p.name = "" ∨ p.ipfs_pin_hash = ""
    · simp only [hskip, if_true] at hm
      obtain ⟨q, hq, hq2⟩ := ih hm
      exact ⟨q, List.mem_cons_of_mem p hq, hq2⟩
    · simp only [hskip, if_false] at hm
      cases hmatch1 : matchImageName p.name with
      | some fid2 =>
        rw [hmatch1] at hm
        obtain ⟨q, hq, hq2⟩ := ih hm
        exact ⟨q, List.mem_cons_of_mem p hq, hq2⟩
      | none =>
        rw [hmatch1] at hm
        cases hmatch : matchMetadataName p.name with
        | none =>
          rw [hmatch] at hm
          obtain ⟨q, hq, hq2⟩ := ih hm
          exact ⟨q, List.mem_cons_of_mem p hq, hq2⟩
        | some fid2 =>
          rw [hmatch] at hm
          cases hrest : mapGet (buildMetadataMap rest) fid with
          | some h0 =>
            rw [mapGet_append_some _ _ _ _ hrest] at hm
            obtain ⟨q, hq, hq2⟩ := ih (hrest.trans hm)
            exact ⟨q, List.mem_cons_of_mem p hq, hq2⟩
          | none =>
            rw [mapGet_append_none _ _ _ hrest] at hm
            by_cases hk : fid2 = fid
            · subst hk
              simp [mapGet] at hm
              exact ⟨p, List.mem_cons_self p rest, hmatch, hm⟩
            · simp [mapGet, hk] at hm

/-- The metadata step never touches the image hash. -/
theorem applyMetadataHash_image (mm : List (Nat × String)) (fb : Flag × Bool) :
    (applyMetadataHash mm fb).1.image_ipfs_hash = fb.1.image_ipfs_hash := by
  rcases h : mapGet mm fb.1.id with _ | v
  · simp [applyMetadataHash, h]
  · by_cases he : fb.1.metadata_ipfs_hash = some v <;> simp [applyMetadataHash, h, he]

/-- The image step never touches the metadata hash. -/
theorem applyImageHash_metadata (im : List (Nat × String)) (f : Flag) :
    (applyImageHash im f).1.metadata_ipfs_hash = f.metadata_ipfs_hash := by
  rcases h : mapGet im f.id with _ | v
  · simp [applyImageHash, h]
  · by_cases he : f.image_ipfs_hash = some v <;> simp [applyImageHash, h, he]

/-- The image step never touches the flag identifier. -/
theorem applyImageHash_id (im : List (Nat × String)) (f : Flag) :
    (applyImageHash im f).1.id = f.id := by
  rcases h : mapGet im f.id with _ | v
  · simp [applyImageHash, h]
  · by_cases he : f.image_ipfs_hash = some v <;> simp [applyImageHash, h, he]

/-- The image hash after the image step: the map value when the map has
one, the stored hash otherwise. -/
theorem applyImageHash_image (im : List (Nat × String)) (f : Flag) :
    (applyImageHash im f).1.image_ipfs_hash =
      (match mapGet im f.id with
       | some h => some h
       | none => f.image_ipfs_hash) := by
  rcases h : mapGet im f.id with _ | v
  · simp [applyImageHash, h]
  · by_cases he : f.image_ipfs_hash = some v <;> simp [applyImageHash, h, he]

/-- The metadata hash after the metadata step. -/
theorem applyMetadataHash_metadata (mm : List (Nat × String)) (fb : Flag × Bool) :
    (applyMetadataHash mm fb).1.metadata_ipfs_hash =
      (match mapGet mm fb.1.id with
       | some h => some h
       | none => fb.1.metadata_ipfs_hash) := by
  rcases h : mapGet mm fb.1.id with _ | v
  · simp [applyMetadataHash, h]
  · by_cases he : fb.1.metadata_ipfs_hash = some v <;> simp [applyMetadataHash, h, he]

/-- The updated mark of the image step is set exactly when the image hash
changed. -/
theorem applyImageHash_snd (im : List (Nat × String)) (f : Flag) :
    (applyImageHash im f).2 = true ↔
      (applyImageHash im f).1.image_ipfs_hash ≠ f.image_ipfs_hash := by
  rcases h : mapGet im f.id with _ | v
  · simp [applyImageHash, h]
  · by_cases he : f.image_ipfs_hash = some v
    · simp [applyImageHash, h, he]
    · simp [applyImageHash, h, he, Ne.symm he]

/-- The updated mark of the metadata step is set exactly when the metadata
hash changed or the mark was already set. -/
theorem applyMetadataHash_snd (mm : List (Nat × String)) (fb : Flag × Bool) :
    (applyMetadataHash mm fb).2 = true ↔
      ((applyMetadataHash mm fb).1.metadata_ipfs_hash ≠ fb.1.metadata_ipfs_hash ∨
        fb.2 = true) := by
  rcases h : mapGet mm fb.1.id with _ | v
  · simp [applyMetadataHash, h]
  · by_cases he : fb.1.metadata_ipfs_hash = some v
    · simp [applyMetadataHash, h, he]
    · simp [applyMetadataHash, h, he, Ne.symm he]

/-- The image hash written by the per-flag synchronization body. -/
theorem syncFlag_image (im mm : List (Nat × String)) (f : Flag) :
    (syncFlag im mm f).1.image_ipfs_hash =
      (match mapGet im f.id with
       | some h => some h
       | none => f.image_ipfs_hash) := by
  unfold syncFlag
  rw [applyMetadataHash_image, applyImageHash_image]

/-- The metadata hash written by the per-flag synchronization body. -/
theorem syncFlag_metadata (im mm : List (Nat × String)) (f : Flag) :
    (syncFlag im mm f).1.metadata_ipfs_hash =
      (match mapGet mm f.id with
       | some h => some h
       | none => f.metadata_ipfs_hash) := by
  unfold syncFlag
  rw [applyMetadataHash_metadata, applyImageHash_id, applyImageHash_metadata]

/-- The updated mark of the per-flag synchronization body is set exactly
when at least one of the two hashes changed. -/
theorem syncFlag_updated (im mm : List (Nat × String)) (f : Flag) :
    (syncFlag im mm f).2 = true ↔
      ((syncFlag im mm f).1.image_ipfs_hash ≠ f.image_ipfs_hash ∨
       (syncFlag im mm f).1.metadata_ipfs_hash ≠ f.metadata_ipfs_hash) := by
  unfold syncFlag
  constructor
  · intro hu
    rcases (applyMetadataHash_snd mm (applyImageHash im f)).mp hu with hm | hf
    · refine Or.inr ?_
      rw [applyImageHash_metadata] at hm
      exact hm
    · refine Or.inl ?_
      rw [applyMetadataHash_image]
      exact (applyImageHash_snd im f).mp hf
  · intro hor
    refine (applyMetadataHash_snd mm (applyImageHash im f)).mpr ?_
    rcases hor with hi | hm
    · refine Or.inr ((applyImageHash_snd im f).mpr ?_)
      rw [applyMetadataHash_image] at hi
      exact hi
    · refine Or.inl ?_
      rw [applyImageHash_metadata]
      exact hm
/-- Claim C9 as amended: in the IPFS synchronization, a flag's image hash
changes only to the hash of a pinned file whose name matches the image
regex with the flag's id — three uppercase letters, underscore, lowercase
letters, underscore, a string of Unicode decimal digits parsed as the id
(leading zeros ignored), then `.png` optionally followed by one trailing
newline — and its metadata hash only to that of a pin matching the
metadata regex (`flag_`, digits, `_metadata.json`, same anchor); a flag
with no matching pin, or whose stored hash already equals the pinned one,
keeps its hash; and the updated count equals the number of flags for
which at least one of the two hashes changed. -/
theorem claim_C9 (pins : List Pin) (flags : List Flag) :
    (syncFlags pins flags).2 =
      (flags.filter (fun f =>
        decide ((syncFlag (buildImageMap pins) (buildMetadataMap pins) f).1.image_ipfs_hash ≠ f.image_ipfs_hash ∨
          (syncFlag (buildImageMap pins) (buildMetadataMap pins) f).1.metadata_ipfs_hash ≠ f.metadata_ipfs_hash))).length
  ∧ ∀ f ∈ flags,
      ((syncFlag (buildImageMap pins) (buildMetadataMap pins) f).1.image_ipfs_hash ≠ f.image_ipfs_hash →
        ∃ p ∈ pins, matchImageName p.name = some f.id ∧
          (syncFlag (buildImageMap pins) (buildMetadataMap pins) f).1.image_ipfs_hash = some p.ipfs_pin_hash)
    ∧ ((∀ p ∈ pins, matchImageName p.name ≠ some f.id) →
        (syncFlag (buildImageMap pins) (buildMetadataMap pins) f).1.image_ipfs_hash = f.image_ipfs_hash)
    ∧ (∀ h, mapGet (buildImageMap pins) f.id = some h → f.image_ipfs_hash = some h →
        (syncFlag (buildImageMap pins) (buildMetadataMap pins) f).1.image_ipfs_hash = f.image_ipfs_hash)
    ∧ ((syncFlag (buildImageMap pins) (buildMetadataMap pins) f).1.metadata_ipfs_hash ≠ f.metadata_ipfs_hash →
        ∃ p ∈ pins, matchMetadataName p.name = some f.id ∧
          (syncFlag (buildImageMap pins) (buildMetadataMap pins) f).1.metadata_ipfs_hash = some p.ipfs_pin_hash)
    ∧ ((∀ p ∈ pins, matchMetadataName p.name ≠ some f.id) →
        (syncFlag (buildImageMap pins) (buildMetadataMap pins) f).1.metadata_ipfs_hash = f.metadata_ipfs_hash)
    ∧ (∀ h, mapGet (buildMetadataMap pins) f.id = some h → f.metadata_ipfs_hash = some h →
        (syncFlag (buildImageMap pins) (buildMetadataMap pins) f).1.metadata_ipfs_hash = f.metadata_ipfs_hash) := by
  constructor
  · simp only [syncFlags]
    refine congrArg List.length (List.filter_congr ?_)
    intro f hf
    rw [Bool.eq_iff_iff, decide_eq_true_eq]
    exact syncFlag_updated _ _ f
  · intro f hf
    refine ⟨?_, ?_, ?_, ?_, ?_, ?_⟩
    · intro hne
      have himg := syncFlag_image (buildImageMap pins) (buildMetadataMap pins) f
      cases hm : mapGet (buildImageMap pins) f.id with
      | none =>
        rw [hm] at himg
        exact absurd himg hne
      | some h =>
        rw [hm] at himg
        obtain ⟨p, hp, hmatch, hhash⟩ := mapGet_buildImageMap pins f.id h hm
        exact ⟨p, hp, hmatch, by rw [himg, hhash]⟩
    · intro hnone
      cases hm : mapGet (buildImageMap pins) f.id with
      | some h =>
        obtain ⟨p, hp, hmatch, _⟩ := mapGet_buildImageMap pins f.id h hm
        exact absurd hmatch (hnone p hp)
      | none =>
        have himg := syncFlag_image (buildImageMap pins) (buildMetadataMap pins) f
        rw [hm] at himg
        exact himg
    · intro h hm he
      have himg := syncFlag_image (buildImageMap pins) (buildMetadataMap pins) f
      rw [hm] at himg
      rw [himg, he]
    · intro hne
      have hmet := syncFlag_metadata (buildImageMap pins) (buildMetadataMap pins) f
      cases hm : mapGet (buildMetadataMap pins) f.id with
      | none =>
        rw [hm] at hmet
        exact absurd hmet hne
      | some h =>
        rw [hm] at hmet
        obtain ⟨p, hp, hmatch, hhash⟩ := mapGet_buildMetadataMap pins f.id h hm
        exact ⟨p, hp, hmatch, by rw [hmet, hhash]⟩
    · intro hnone
      cases hm : mapGet (buildMetadataMap pins) f.id with
      | some h =>
        obtain ⟨p, hp, hmatch, _⟩ := mapGet_buildMetadataMap pins f.id h hm
        exact absurd hmatch (hnone p hp)
      | none =>
        have hmet := syncFlag_metadata (buildImageMap pins) (buildMetadataMap pins) f
        rw [hm] at hmet
        exact hmet
    · intro h hm he
      have hmet := syncFlag_metadata (buildImageMap pins) (buildMetadataMap pins) f
      rw [hm] at hmet
      rw [hmet, he]

/-- A concrete pin list for the synchronization witness. -/
def samplePins : List Pin :=
  [⟨"ITA_siena_001.png", "QmImgOne"⟩, ⟨"flag_1_metadata.json", "QmMetaOne"⟩]

/-- Witness for claim C9: on a concrete pin list and catalog, the updated
count equals the number of flags with a changed hash. -/
theorem claim_C9_witness :
    (syncFlags samplePins [sampleFlagA, sampleFlagB]).2 =
      (([sampleFlagA, sampleFlagB]).filter (fun f =>
        decide ((syncFlag (buildImageMap samplePins) (buildMetadataMap samplePins) f).1.image_ipfs_hash ≠ f.image_ipfs_hash ∨
          (syncFlag (buildImageMap samplePins) (buildMetadataMap samplePins) f).1.metadata_ipfs_hash ≠ f.metadata_ipfs_hash))).length :=
  (claim_C9 samplePins [sampleFlagA, sampleFlagB]).1

/-- A pin list with a single pin whose name ends in a newline after
`.png`: the source regex accepts it via the `$` anchor, the exact shape
described by claim C9 does not. -/
def cexPins : List Pin := [⟨"ITA_siena_001.png\n", "QmTrailingNewline"⟩]

/-- The flag whose image hash the synchronization overwrites from that
pin. -/
def cexFlag : Flag := ⟨1, 1, 2, false, none, none⟩

/-- Counterexample to claim C9 as stated: on a concrete pin list the
synchronization overwrites flag 1's image hash although no pin name has
the claimed exact shape ending in `.png` — the pin's name carries a
trailing newline, which Python's `$` anchor accepts. -/
theorem claim_C9_counterexample :
    (syncFlag (buildImageMap cexPins) (buildMetadataMap cexPins) cexFlag).1.image_ipfs_hash
        ≠ cexFlag.image_ipfs_hash
  ∧ ∀ p ∈ cexPins, claimedImageName p.name ≠ some cexFlag.id := by
  decide

/-- The ledger maximum is none only for an empty ledger. -/
theorem highestBid_none (l : List Bid) (h : highestBid l = none) : l = [] := by
  cases l with
  | nil => rfl
  | cons b rest =>
    rw [highestBid] at h
    cases hr : highestBid rest with
    | none =>
      rw [hr] at h
      simp at h
    | some h0 =>
      rw [hr] at h
      by_cases hb : betterBid b h0 = true <;> simp [hb] at h

/-- The ledger maximum is a member of the ledger. -/
theorem highestBid_mem (l : List Bid) (h : Bid) (hh : highestBid l = some h) : h ∈ l := by
  induction l generalizing h with
  | nil => simp [highestBid] at hh
  | cons b rest ih =>
    rw [highestBid] at hh
    cases hr : highestBid rest with
    | none =>
      rw [hr] at hh
      injection hh with hh
      subst hh
      exact List.mem_cons_self b rest
    | some h0 =>
      rw [hr] at hh
      by_cases hb : betterBid b h0 = true
      · simp only [hb, if_true, Option.some.injEq] at hh
        subst hh
        exact List.mem_cons_self b rest
      · simp [hb] at hh
        subst hh
        exact List.mem_cons_of_mem b (ih h0 hr)

/-- Maximality of the ledger maximum: every ledger entry has a smaller
amount, or an equal amount and a timestamp no earlier. -/
theorem highestBid_max (l : List Bid) (h : Bid) (hh : highestBid l = some h) :
    ∀ b ∈ l, b.amount < h.amount ∨ (b.amount = h.amount ∧ h.timestamp ≤ b.timestamp) := by
  induction l generalizing h with
  | nil => simp [highestBid] at hh
  | cons b rest ih =>
    rw [highestBid] at hh
    cases hr : highestBid rest with
    | none =>
      rw [hr] at hh
      injection hh with hh
      subst hh
      have hrest := highestBid_none rest hr
      subst hrest
      intro c hc
      rcases List.mem_cons.mp hc with rfl | hcr
      · exact Or.inr ⟨rfl, Nat.le_refl _⟩
      · exact absurd hcr (List.not_mem_nil c)
    | some h0 =>
      rw [hr] at hh
      have ih0 := ih h0 hr
      by_cases hb : betterBid b h0 = true
      · simp only [hb, if_true, Option.some.injEq] at hh
        subst hh
        have hb2 : h0.amount < b.amount ∨ (b.amount = h0.amount ∧ b.timestamp < h0.timestamp) :=
          of_decide_eq_true hb
        intro c hc
        rcases List.mem_cons.mp hc with rfl | hcr
        · omega
        · have := ih0 c hcr
          omega
      · simp [hb] at hh
        subst hh
        have hb2 : ¬(h0.amount < b.amount ∨ (b.amount = h0.amount ∧ b.timestamp < h0.timestamp)) :=
          fun hc => hb (decide_eq_true hc)
        intro c hc
        rcases List.mem_cons.mp hc with rfl | hcr
        · omega
        · exact ih0 c hcr
/-- Auctions with equal auction tables agree on lookups. -/
theorem findAuction_eq_of_auctions (d1 d2 : DB) (aid : Nat)
    (h : d1.auctions = d2.auctions) : findAuction d1 aid = findAuction d2 aid := by
  unfold findAuction
  rw [h]

/-- placeBid never modifies the auction table. -/
theorem placeBid_auctions (db : DB) (aid : Nat) (r : BidReq) :
    ((placeBid db aid r).2).auctions = db.auctions := by
  rcases hf : findAuction db aid with _ | a
  · simp [placeBid, hf]
  · simp only [placeBid, hf]
    split
    · rfl
    · split
      · rfl
      · split <;> rfl

/-- Trace facts of a bid run: every trace entry carries one of the
requests, its recorded outcome is the outcome of placeBid in its recorded
state, and its state still resolves the auction as the initial state did. -/
theorem runBids_trace (aid : Nat) (reqs : List BidReq) :
    ∀ db : DB, ∀ t ∈ (runBids db aid reqs).1,
      t.2.1 ∈ reqs ∧ t.2.2 = (placeBid t.1 aid t.2.1).1 ∧
        findAuction t.1 aid = findAuction db aid := by
  induction reqs with
  | nil =>
    intro db t ht
    simp [runBids] at ht
  | cons r rs ih =>
    intro db t ht
    rw [runBids] at ht
    rcases List.mem_cons.mp ht with rfl | hmem
    · exact ⟨List.mem_cons_self r rs, rfl, rfl⟩
    · obtain ⟨h1, h2, h3⟩ := ih (placeBid db aid r).2 t hmem
      refine ⟨List.mem_cons_of_mem r h1, h2, ?_⟩
      rw [h3]
      exact findAuction_eq_of_auctions _ _ aid (placeBid_auctions db aid r)

/-- Claim C6: over any finite sequence of bids on one active auction, all
decided before the closing time, every rejection is a BidTooLow on a bid
that did not strictly exceed the floor (the highest accepted bid, or the
reserve price before any bid) at its decision point, every accepted bid
strictly exceeded that floor, and the resulting highestBid is a ledger
member maximal in amount with ties broken by earliest timestamp. -/
theorem claim_C6 (db : DB) (aid : Nat) (a : Auction) (reqs : List BidReq)
    (hfa : findAuction db aid = some a) (hact : a.status = AuctionStatus.ACTIVE)
    (hts : ∀ r ∈ reqs, r.timestamp < a.close_at) :
    (∀ t ∈ (runBids db aid reqs).1, ∀ e, t.2.2 = Except.error e →
        e = BidError.BidTooLow ∧ t.2.1.amount ≤ currentFloor a (bidsFor t.1 aid))
  ∧ (∀ t ∈ (runBids db aid reqs).1, ∀ i, t.2.2 = Except.ok i →
        currentFloor a (bidsFor t.1 aid) < t.2.1.amount)
  ∧ (∀ h, highestBid (bidsFor (runBids db aid reqs).2 aid) = some h →
        h ∈ bidsFor (runBids db aid reqs).2 aid ∧
        ∀ b ∈ bidsFor (runBids db aid reqs).2 aid,
          b.amount < h.amount ∨ (b.amount = h.amount ∧ h.timestamp ≤ b.timestamp))
  ∧ (bidsFor (runBids db aid reqs).2 aid ≠ [] →
        (highestBid (bidsFor (runBids db aid reqs).2 aid)).isSome = true) := by
  refine ⟨?_, ?_, ?_, ?_⟩
  · intro t ht e he
    obtain ⟨hreq, hres, hfind⟩ := runBids_trace aid reqs db t ht
    rw [hfa] at hfind
    have hclose : ¬ (a.close_at ≤ t.2.1.timestamp) := Nat.not_le.mpr (hts _ hreq)
    rw [hres] at he
    by_cases hle : t.2.1.amount ≤ currentFloor a (bidsFor t.1 aid)
    · simp [placeBid, hfind, hclose, hact, hle] at he
      exact ⟨he.symm, hle⟩
    · simp [placeBid, hfind, hclose, hact, hle] at he
  · intro t ht i hi
    obtain ⟨hreq, hres, hfind⟩ := runBids_trace aid reqs db t ht
    rw [hfa] at hfind
    have hclose : ¬ (a.close_at ≤ t.2.1.timestamp) := Nat.not_le.mpr (hts _ hreq)
    rw [hres] at hi
    by_cases hle : t.2.1.amount ≤ currentFloor a (bidsFor t.1 aid)
    · simp [placeBid, hfind, hclose, hact, hle] at hi
    · exact Nat.not_le.mp hle
  · intro h hh
    exact ⟨highestBid_mem _ h hh, highestBid_max _ h hh⟩
  · intro hne
    cases hb : highestBid (bidsFor (runBids db aid reqs).2 aid) with
    | none => exact absurd (highestBid_none _ hb) hne
    | some h => rfl

/-- The bid requests used by the claim C6 witness: an opening bid at the
reserve, a higher bid, then an equal bid that must fail. -/
def sampleReqs : List BidReq := [⟨7, 11, 1⟩, ⟨8, 15, 2⟩, ⟨7, 15, 3⟩]

/-- Witness for claim C6: after a concrete run that accepts two bids and
rejects a tie, the ledger maximum exists. -/
theorem claim_C6_witness :
    (highestBid (bidsFor (runBids sampleDB 1 sampleReqs).2 1)).isSome = true :=
  (claim_C6 sampleDB 1 sampleAuction sampleReqs (by decide) (by decide)
    (by decide)).2.2.2 (by decide)

/-- The ownership write never modifies the auction table. -/
theorem writeOwnership_auctions (db : DB) (fid uid : Nat) :
    (writeOwnership db fid uid).auctions = db.auctions := rfl

/-- The ownership write never modifies the bid table. -/
theorem writeOwnership_bids (db : DB) (fid uid : Nat) :
    (writeOwnership db fid uid).bids = db.bids := rfl

/-- The pair recomputation never modifies the auction table. -/
theorem recomputePair_auctions (db : DB) (fid : Nat) :
    (recomputePair db fid).auctions = db.auctions := by
  unfold recomputePair
  cases db.flags.find? (fun f => decide (f.id = fid)) <;> rfl

/-- The pair recomputation never modifies the bid table. -/
theorem recomputePair_bids (db : DB) (fid : Nat) :
    (recomputePair db fid).bids = db.bids := by
  unfold recomputePair
  cases db.flags.find? (fun f => decide (f.id = fid)) <;> rfl

/-- The status update never modifies the bid table. -/
theorem setAuctionStatus_bids (db : DB) (aid : Nat) (st : AuctionStatus) :
    (setAuctionStatus db aid st).bids = db.bids := rfl

/-- Databases with equal bid tables agree on per-auction ledgers. -/
theorem bidsFor_eq_of_bids (d1 d2 : DB) (aid : Nat) (h : d1.bids = d2.bids) :
    bidsFor d1 aid = bidsFor d2 aid := by
  unfold bidsFor
  rw [h]

/-- Updating one auction's status rewrites exactly that auction in lookups. -/
theorem find_map_setStatus (l : List Auction) (aid : Nat) (st : AuctionStatus) :
    (l.map (fun a => if a.id = aid then { a with status := st } else a)).find?
        (fun a => decide (a.id = aid)) =
      (l.find? (fun a => decide (a.id = aid))).map (fun a => { a with status := st }) := by
  induction l with
  | nil => rfl
  | cons a l ih =>
    by_cases ha : a.id = aid
    · simp [List.find?_cons, ha]
    · simp [List.find?_cons, ha, ih]

/-- Looking up the updated auction after a status write. -/
theorem findAuction_setAuctionStatus (db : DB) (aid : Nat) (st : AuctionStatus) :
    findAuction (setAuctionStatus db aid st) aid =
      (findAuction db aid).map (fun a => { a with status := st }) := by
  unfold findAuction setAuctionStatus
  exact find_map_setStatus db.auctions aid st

/-- Claim C4: settle is idempotent — whenever a settle call succeeds,
calling settle again on the resulting state is a no-op that returns the
same winner and performs no further write of any kind. -/
theorem claim_C4 (db : DB) (aid : Nat) (w : Option Nat) (db2 : DB)
    (h : settle db aid = (Except.ok w, db2)) :
    settle db2 aid = (Except.ok w, db2) := by
  cases hfa : findAuction db aid with
  | none => simp [settle, settleTx, hfa] at h
  | some a =>
    by_cases hs : a.status = AuctionStatus.SETTLED
    · simp only [settle, settleTx, hfa, hs, if_true, Prod.mk.injEq, Except.ok.injEq] at h
      obtain ⟨hw, hdb⟩ := h
      subst hdb
      simp only [settle, settleTx, hfa, hs, if_true, Prod.mk.injEq, Except.ok.injEq]
      exact ⟨hw, trivial⟩
    · by_cases hc : a.status = AuctionStatus.CLOSING
      · have hnoabort : ¬ txAborts none (settleSteps db aid a).length = true := by
          simp [txAborts]
        simp only [settle, settleTx, hfa] at h
        rw [if_neg hs, if_pos hc, if_neg hnoabort] at h
        injection h with h1 hdb
        injection h1 with hw
        cases hw0 : highestBid (bidsFor db aid) with
        | none =>
          simp only [settleSteps, hw0, List.foldl_cons, List.foldl_nil] at hdb
          subst hdb
          have hfind2 : findAuction (setAuctionStatus db aid AuctionStatus.SETTLED) aid =
              some { a with status := AuctionStatus.SETTLED } := by
            rw [findAuction_setAuctionStatus, hfa]
            rfl
          have hbids2 : bidsFor (setAuctionStatus db aid AuctionStatus.SETTLED) aid =
              bidsFor db aid := rfl
          rw [hw0] at hw
          simp only [Option.map_none'] at hw
          subst hw
          simp only [settle, settleTx, hfind2, if_true]
          rw [hbids2, hw0]
          rfl
        | some wb =>
          simp only [settleSteps, hw0, List.foldl_cons, List.foldl_nil] at hdb
          subst hdb
          have haux : findAuction
              (recomputePair (writeOwnership db a.flag_id wb.user_id) a.flag_id) aid = some a := by
            rw [findAuction_eq_of_auctions _ db]
            · exact hfa
            · rw [recomputePair_auctions, writeOwnership_auctions]
          have hfind2 : findAuction (setAuctionStatus
              (recomputePair (writeOwnership db a.flag_id wb.user_id) a.flag_id)
              aid AuctionStatus.SETTLED) aid =
              some { a with status := AuctionStatus.SETTLED } := by
            rw [findAuction_setAuctionStatus, haux]
            rfl
          have hbids2 : bidsFor (setAuctionStatus
              (recomputePair (writeOwnership db a.flag_id wb.user_id) a.flag_id)
              aid AuctionStatus.SETTLED) aid = bidsFor db aid := by
            apply bidsFor_eq_of_bids
            rw [setAuctionStatus_bids, recomputePair_bids, writeOwnership_bids]
          rw [hw0] at hw
          simp only [Option.map_some'] at hw
          subst hw
          simp only [settle, settleTx, hfind2, if_true]
          rw [hbids2, hw0]
          rfl
      · simp [settle, settleTx, hfa, hs, hc] at h

/-- A concrete database whose auction 1 is CLOSING with one recorded bid,
used by the settlement witnesses. -/
def sampleDBClosing : DB :=
  ⟨[⟨1⟩], [⟨1, 1⟩], [⟨1, 1⟩], [sampleFlagA, sampleFlagB], [⟨7⟩, ⟨8⟩], [⟨1, 7⟩],
   [⟨1, 7, 1⟩], [], [⟨1, 1, AuctionStatus.CLOSING, 0, 100, 10⟩],
   [⟨1, 1, 8, 15, 5⟩]⟩

/-- Witness for claim C4: settling a concrete CLOSING auction once and
then settling again returns the same winner and the same state. -/
theorem claim_C4_witness :
    settle (settle sampleDBClosing 1).2 1 = (Except.ok (some 8), (settle sampleDBClosing 1).2) :=
  claim_C4 sampleDBClosing 1 (some 8) (settle sampleDBClosing 1).2 (by rfl)

/-- Claim C5: settlement failure preserves retryability — any execution of
settleTx on a CLOSING auction that reports an error leaves the database
exactly as it was: the auction is still CLOSING (not SETTLED), and neither
the ownership write nor the pair-completeness write is applied (both or
neither: here neither). -/
theorem claim_C5 (db : DB) (aid : Nat) (a : Auction) (failAt : Option Nat)
    (e : SettleError) (db2 : DB)
    (hfa : findAuction db aid = some a) (hc : a.status = AuctionStatus.CLOSING)
    (h : settleTx db aid failAt = (Except.error e, db2)) :
    db2 = db ∧ e = SettleError.SettlementFailed ∧
    auctionStatusOf db2 aid = some AuctionStatus.CLOSING ∧
    db2.flag_ownerships = db.flag_ownerships ∧ db2.flags = db.flags := by
  have hs : ¬ a.status = AuctionStatus.SETTLED := by
    rw [hc]
    decide
  simp only [settleTx, hfa] at h
  rw [if_neg hs, if_pos hc] at h
  by_cases hab : txAborts failAt (settleSteps db aid a).length = true
  · rw [if_pos hab] at h
    injection h with h1 h2
    injection h1 with h1
    subst h2
    subst h1
    refine ⟨rfl, rfl, ?_, rfl, rfl⟩
    unfold auctionStatusOf
    rw [hfa]
    exact congrArg some hc
  · rw [if_neg hab] at h
    exact absurd h (by simp)

/-- Witness for claim C5: a concrete settlement that fails at its first
write leaves the concrete CLOSING state untouched. -/
theorem claim_C5_witness :
    (settleTx sampleDBClosing 1 (some 0)).2 = sampleDBClosing :=
  (claim_C5 sampleDBClosing 1 ⟨1, 1, AuctionStatus.CLOSING, 0, 100, 10⟩ (some 0)
    SettleError.SettlementFailed (settleTx sampleDBClosing 1 (some 0)).2
    (by decide) (by decide) (by rfl)).1

/-- Two flags of a duplicate-free catalog with the same identifier are the
same flag. -/
theorem eq_of_mem_id (flags : List Flag)
    (hpw : flags.Pairwise (fun f g => f.id ≠ g.id)) (a b : Flag)
    (ha : a ∈ flags) (hb : b ∈ flags) (heq : a.id = b.id) : a = b := by
  induction flags with
  | nil => exact absurd ha (List.not_mem_nil a)
  | cons f rest ih =>
    obtain ⟨hf, hrest⟩ := List.pairwise_cons.mp hpw
    rcases List.mem_cons.mp ha with rfl | ha2
    · rcases List.mem_cons.mp hb with rfl | hb2
      · rfl
      · exact absurd heq (hf b hb2)
    · rcases List.mem_cons.mp hb with rfl | hb2
      · exact absurd heq.symm (hf a ha2)
      · exact ih hrest ha2 hb2

/-- The completeness criterion holds exactly when both pair-mates have the
same owner. -/
theorem pairCompleteNow_iff (owns : List FlagOwnership) (f : Flag) :
    pairCompleteNow owns f = true ↔
      ∃ u, ownerOf owns f.id = some u ∧ ownerOf owns f.pair_mate_id = some u := by
  unfold pairCompleteNow
  cases h1 : ownerOf owns f.id with
  | none => simp
  | some u =>
    cases h2 : ownerOf owns f.pair_mate_id with
    | none => simp
    | some v => simp [eq_comm]

/-- The completeness criterion reads only the owners of the two mates. -/
theorem pairCompleteNow_eq_of_ownerOf (o1 o2 : List FlagOwnership) (f : Flag)
    (h1 : ownerOf o1 f.id = ownerOf o2 f.id)
    (h2 : ownerOf o1 f.pair_mate_id = ownerOf o2 f.pair_mate_id) :
    pairCompleteNow o1 f = pairCompleteNow o2 f := by
  unfold pairCompleteNow
  rw [h1, h2]

/-- Erasing the records of one flag leaves lookups of other flags alone. -/
theorem find_filter_ne (owns : List FlagOwnership) (fid x : Nat) (hx : x ≠ fid) :
    (owns.filter (fun o => decide (o.flag_id ≠ fid))).find? (fun o => decide (o.flag_id = x)) =
      owns.find? (fun o => decide (o.flag_id = x)) := by
  induction owns with
  | nil => rfl
  | cons o rest ih =>
    by_cases ho : o.flag_id = fid
    · have hnx : ¬ (decide (o.flag_id = x) = true) := by
        simp only [decide_eq_true_eq]
        rw [ho]
        exact fun hcontra => hx hcontra.symm
      have hdrop : ¬ (decide (o.flag_id ≠ fid) = true) := by
        simp [ho]
      rw [List.filter_cons_of_neg (p := fun y : FlagOwnership => decide (y.flag_id ≠ fid)) hdrop,
        List.find?_cons_of_neg (p := fun y : FlagOwnership => decide (y.flag_id = x)) rest hnx, ih]
    · have hkeep : decide (o.flag_id ≠ fid) = true := by
        simp [ho]
      rw [List.filter_cons_of_pos (p := fun y : FlagOwnership => decide (y.flag_id ≠ fid)) hkeep]
      by_cases hox : o.flag_id = x
      · have hpos : decide (o.flag_id = x) = true := by
          simp [hox]
        rw [List.find?_cons_of_pos (p := fun y : FlagOwnership => decide (y.flag_id = x)) _ hpos,
          List.find?_cons_of_pos (p := fun y : FlagOwnership => decide (y.flag_id = x)) rest hpos]
      · have hneg : ¬ (decide (o.flag_id = x) = true) := by
          simp [hox]
        rw [List.find?_cons_of_neg (p := fun y : FlagOwnership => decide (y.flag_id = x)) _ hneg,
          List.find?_cons_of_neg (p := fun y : FlagOwnership => decide (y.flag_id = x)) rest hneg, ih]

/-- After the exclusive ownership write of one flag, all other flags keep
their owner. -/
theorem ownerOf_write_ne (owns : List FlagOwnership) (fid uid nid x : Nat)
    (hx : x ≠ fid) :
    ownerOf (⟨nid, uid, fid⟩ :: owns.filter (fun o => decide (o.flag_id ≠ fid))) x =
      ownerOf owns x := by
  unfold ownerOf
  rw [List.find?_cons_of_neg, find_filter_ne owns fid x hx]
  simp
  exact fun hcontra => hx hcontra.symm

/-- After the removal of one flag's ownership records, all other flags
keep their owner. -/
theorem ownerOf_remove_ne (owns : List FlagOwnership) (fid x : Nat) (hx : x ≠ fid) :
    ownerOf (owns.filter (fun o => decide (o.flag_id ≠ fid))) x = ownerOf owns x := by
  unfold ownerOf
  rw [find_filter_ne owns fid x hx]

/-- Well-formed pairing is preserved by any per-flag rewrite that keeps
identifiers and pair-mate references. -/
theorem PairWF_map (flags : List Flag) (g : Flag → Flag)
    (hid : ∀ f, (g f).id = f.id) (hmate : ∀ f, (g f).pair_mate_id = f.pair_mate_id)
    (h : PairWF flags) : PairWF (flags.map g) := by
  obtain ⟨h1, h2⟩ := h
  constructor
  · rw [List.pairwise_map]
    refine h1.imp ?_
    intro a b hab
    rw [hid, hid]
    exact hab
  · intro f hf
    obtain ⟨f0, hf0, rfl⟩ := List.mem_map.mp hf
    obtain ⟨m, hm, hm1, hm2⟩ := h2 f0 hf0
    refine ⟨g m, List.mem_map_of_mem g hm, ?_, ?_⟩
    · rw [hid, hmate]
      exact hm1
    · rw [hmate, hid]
      exact hm2

/-- Well-formed pairing is preserved by the pair recomputation. -/
theorem PairWF_recomputePair (db : DB) (fid : Nat) (hwf : PairWF db.flags) :
    PairWF (recomputePair db fid).flags := by
  unfold recomputePair
  cases hfind : db.flags.find? (fun f => decide (f.id = fid)) with
  | none => exact hwf
  | some f0 =>
    refine PairWF_map db.flags _ ?_ ?_ hwf
    · intro f
      dsimp only
      split <;> rfl
    · intro f
      dsimp only
      split <;> rfl

/-- Core preservation argument: if the ownership table changes only at one
flag identifier and both sides of that flag's pair are then recomputed,
the completeness invariant carries over to the new state. -/
theorem PairInv_recompute_general (db : DB) (fid : Nat) (owns2 : List FlagOwnership)
    (hwf : PairWF db.flags) (hinv : PairInv db)
    (hsame : ∀ x, x ≠ fid → ownerOf owns2 x = ownerOf db.flag_ownerships x) :
    PairInv (recomputePair { db with flag_ownerships := owns2 } fid) := by
  obtain ⟨hpw, hmatewf⟩ := hwf
  simp only [recomputePair]
  cases hfind : db.flags.find? (fun f => decide (f.id = fid)) with
  | none =>
    have hno : ∀ g ∈ db.flags, ¬ g.id = fid := by
      intro g hg
      have := List.find?_eq_none.mp hfind g hg
      simpa using this
    intro f hf
    have hf2 : f ∈ db.flags := hf
    have hfid : f.id ≠ fid := hno f hf2
    have hmate : f.pair_mate_id ≠ fid := by
      intro hcontra
      obtain ⟨g, hg, hg1, _⟩ := hmatewf f hf2
      exact hno g hg (hg1.trans hcontra)
    rw [hinv f hf2]
    exact (pairCompleteNow_eq_of_ownerOf owns2 db.flag_ownerships f
      (hsame f.id hfid) (hsame f.pair_mate_id hmate)).symm
  | some f0 =>
    have hf0mem : f0 ∈ db.flags := List.mem_of_find?_eq_some hfind
    have hf0id : f0.id = fid := by
      have := List.find?_some hfind
      simpa using this
    intro f2 hf2
    obtain ⟨f, hf, rfl⟩ := List.mem_map.mp hf2
    by_cases hcond : f.id = fid ∨ f.id = f0.pair_mate_id
    · rw [if_pos hcond]
      rfl
    · rw [if_neg hcond]
      push_neg at hcond
      have hmate_ne : f.pair_mate_id ≠ fid := by
        intro hcontra
        obtain ⟨g, hg, hg1, hg2⟩ := hmatewf f hf
        have hgf0 : g = f0 :=
          eq_of_mem_id db.flags hpw g f0 hg hf0mem (by rw [hg1, hcontra, hf0id])
        refine hcond.2 ?_
        rw [← hg2, hgf0]
      rw [hinv f hf]
      exact (pairCompleteNow_eq_of_ownerOf owns2 db.flag_ownerships f
        (hsame f.id hcond.1) (hsame f.pair_mate_id hmate_ne)).symm

/-- The completeness invariant survives a settlement's ownership write
followed by the recomputation of the pair. -/
theorem PairInv_settleOwnership (db : DB) (fid uid : Nat)
    (hwf : PairWF db.flags) (hinv : PairInv db) :
    PairInv (settleOwnership db fid uid) :=
  PairInv_recompute_general db fid _ hwf hinv
    (fun x hx => ownerOf_write_ne db.flag_ownerships fid uid _ x hx)

/-- The completeness invariant survives an ownership release followed by
the recomputation of the pair. -/
theorem PairInv_releaseOwnership (db : DB) (fid : Nat)
    (hwf : PairWF db.flags) (hinv : PairInv db) :
    PairInv (releaseOwnership db fid) :=
  PairInv_recompute_general db fid _ hwf hinv
    (fun x hx => ownerOf_remove_ne db.flag_ownerships fid x hx)

/-- Every reachable engine state is well paired and satisfies the
completeness invariant. -/
theorem Reachable_inv (db : DB) (h : Reachable db) : PairWF db.flags ∧ PairInv db := by
  induction h with
  | init db hwf hown hinit =>
    refine ⟨hwf, ?_⟩
    intro f hf
    rw [hinit f hf, hown]
    rfl
  | settleStep db fid uid h hmem ih =>
    obtain ⟨hwf, hinv⟩ := ih
    exact ⟨PairWF_recomputePair (writeOwnership db fid uid) fid hwf,
      PairInv_settleOwnership db fid uid hwf hinv⟩
  | releaseStep db fid h ih =>
    obtain ⟨hwf, hinv⟩ := ih
    exact ⟨PairWF_recomputePair (removeOwnership db fid) fid hwf,
      PairInv_releaseOwnership db fid hwf hinv⟩
  | auctionStep db aucts bs h ih =>
    exact ih

/-- Claim C1: in every reachable state, a flag's stored is_pair_complete
is true exactly when both flags of its pair currently have an owner and
both owners are the same user, and consequently the completed_pairs
statistic of the admin panel equals the number of flags satisfying
exactly that condition. -/
theorem claim_C1 (db : DB) (h : Reachable db) :
    (∀ f ∈ db.flags, (f.is_pair_complete = true ↔
        ∃ u, ownerOf db.flag_ownerships f.id = some u ∧
          ownerOf db.flag_ownerships f.pair_mate_id = some u))
  ∧ completedPairsCount db.flags =
      (db.flags.filter (fun f => pairCompleteNow db.flag_ownerships f)).length
  ∧ (adminStatsOf db).completed_pairs =
      (db.flags.filter (fun f => pairCompleteNow db.flag_ownerships f)).length := by
  obtain ⟨hwf, hinv⟩ := Reachable_inv db h
  have hcount : completedPairsCount db.flags =
      (db.flags.filter (fun f => pairCompleteNow db.flag_ownerships f)).length := by
    unfold completedPairsCount
    exact congrArg List.length (List.filter_congr (fun f hf => hinv f hf))
  refine ⟨?_, hcount, hcount⟩
  intro f hf
  rw [hinv f hf]
  exact pairCompleteNow_iff db.flag_ownerships f

/-- The doubly settled concrete state for the claim C1 witness: user 7 has
won both flags of the pair. -/
def samplePairDone : DB := settleOwnership (settleOwnership sampleDB 1 7) 2 7

/-- Witness for claim C1: in the concrete reachable state where user 7
owns both pair-mates, the completed_pairs statistic equals the count of
same-owner pairs. -/
theorem claim_C1_witness :
    completedPairsCount samplePairDone.flags =
      (samplePairDone.flags.filter
        (fun f => pairCompleteNow samplePairDone.flag_ownerships f)).length :=
  (claim_C1 samplePairDone
    (Reachable.settleStep (settleOwnership sampleDB 1 7) 2 7
      (Reachable.settleStep sampleDB 1 7
        (Reachable.init sampleDB (by decide) (by decide) (by decide))
        (by decide))
      (by decide))).2.1

end FlagGame
